import Mathlib

/-!
# Verification of the chimi build-configuration subsystem

Shallow embedding of the build-configuration resolution and build-state
tracking code of the `chimi` repository (`chimi/build.py`, `chimi/config.py`,
`chimi/core.py`), together with theorems settling the specification claims.

Modelling conventions:

* Python strings are modelled as `List Char` (`Str`), so that every string
  operation is structurally recursive and proofs can evaluate them.
* Python values that can appear as the value of a build option (a boolean or
  the string taken from a `name=value` token) are modelled by `PyVal`.
* Python dictionaries are modelled as association lists built by `dictSet`
  (which, like Python assignment `d[k] = v`, replaces an existing binding in
  place or appends a new one); dictionary equality is the order-independent
  `dictEq`.  Dictionaries reachable in the Python code never hold duplicate
  keys (`NodupKeys`).
* Exceptions are modelled with `Except`; the two `assert` statements in
  `BuildConfig.create` are modelled as distinguished error values.
* External effects (the host clock, `os.uname`, the CUDA-toolkit probe,
  the host-data file, `configure --help` output, `stderr` output and
  directory deletion) are modelled as explicit parameters or result values.
-/

namespace Chimi

/-- A Python string, as a list of characters. -/
abbrev Str := List Char

/-- Convenience conversion from a Lean string literal. -/
def str (s : String) : Str := s.toList

instance {ε α : Type} [DecidableEq ε] [DecidableEq α] :
    DecidableEq (Except ε α) := fun a b =>
  match a, b with
  | .ok x, .ok y =>
    if h : x = y then .isTrue (by rw [h]) else .isFalse (by simp [h])
  | .error e, .error f =>
    if h : e = f then .isTrue (by rw [h]) else .isFalse (by simp [h])
  | .ok _, .error _ => .isFalse (by simp)
  | .error _, .ok _ => .isFalse (by simp)

/-- A Python value used as an option value: `True`/`False` or a string. -/
inductive PyVal where
  | bool (b : Bool)
  | str (s : Str)
deriving DecidableEq, Repr

/-- Python `d[k] = v` on an association list: replace in place or append. -/
def dictSet {α : Type} (d : List (Str × α)) (k : Str) (v : α) :
    List (Str × α) :=
  match d with
  | [] => [(k, v)]
  | (k', v') :: rest =>
    if k' = k then (k, v) :: rest else (k', v') :: dictSet rest k v

/-- Python `d[k]` / `k in d` lookup on an association list (first match). -/
def dictGet {α : Type} (d : List (Str × α)) (k : Str) : Option α :=
  match d with
  | [] => none
  | (k', v') :: rest => if k' = k then some v' else dictGet rest k

/-- Python dictionary equality: same keys with equal values, regardless of
insertion order.  This agrees with CPython `dict.__eq__` on association lists
without duplicate keys, which is the only kind the embedded code builds. -/
def dictEq {α : Type} [DecidableEq α] (d₁ d₂ : List (Str × α)) : Bool :=
  d₁.all (fun kv => dictGet d₂ kv.1 == some kv.2) &&
    d₂.all (fun kv => dictGet d₁ kv.1 == some kv.2)

/-- The keys of an association list are duplicate-free (true of every
dictionary reachable in the Python code). -/
def NodupKeys {α : Type} (d : List (Str × α)) : Prop :=
  (d.map Prod.fst).Nodup

instance {α : Type} (d : List (Str × α)) : Decidable (NodupKeys d) :=
  inferInstanceAs (Decidable (d.map Prod.fst).Nodup)

/-- Lexicographic string comparison (Python `<=` on `str`), written with
`Char.toNat` so that it evaluates by kernel reduction. -/
def strLe : Str → Str → Bool
  | [], _ => true
  | _ :: _, [] => false
  | a :: as, b :: bs =>
    if a.toNat < b.toNat then true
    else if b.toNat < a.toNat then false
    else strLe as bs

/-- The comparison `strLe` as a relation, for use with `List.insertionSort`. -/
def strLeP (a b : Str) : Prop := strLe a b = true

instance : DecidableRel strLeP := fun a b => instDecidableEqBool (strLe a b) true

/-- Python `list.sort()` / `sorted` on a list of strings (a stable sort;
insertion sort is used as the model). -/
def pySort (l : List Str) : List Str := List.insertionSort strLeP l

/-! ## Architecture metadata (`chimi/core.py`, class `CharmArchitecture`) -/

/-- The per-architecture option fields `_options`, `_compilers` and
`_fortran_compilers` of one `CharmArchitecture` object (each is `None` or a
non-empty sorted list). -/
structure ArchNode where
  options : Option (List Str)
  compilers : Option (List Str)
  fortran_compilers : Option (List Str)
deriving DecidableEq, Repr

/-- Field initialisation of `CharmArchitecture.__init__`: a field is set to
the sorted input list when a non-empty list was supplied, and left `None`
otherwise. -/
def mkArchNode (options compilers fortran_compilers : Option (List Str)) :
    ArchNode :=
  { options := match options with
      | some l => if l.length > 0 then some (pySort l) else none
      | none => none
    compilers := match compilers with
      | some l => if l.length > 0 then some (pySort l) else none
      | none => none
    fortran_compilers := match fortran_compilers with
      | some l => if l.length > 0 then some (pySort l) else none
      | none => none }

/-- A `CharmArchitecture` together with its ancestor chain: `chain` lists the
option fields of the architecture itself first, followed by those of its
parent, grandparent, and so on (the `ref = self; while ref: ...;
ref = ref.parent` traversal of `merge_property_with_inherited`). -/
structure CharmArchitecture where
  chain : List ArchNode
  is_base : Bool
deriving DecidableEq, Repr

/-- Value of `node.field` if it holds a list, `[]` if it is `None` (the
`isinstance(rprop, list)` guard of `merge_property_with_inherited`). -/
def propList (o : Option (List Str)) : List Str :=
  match o with
  | some l => l
  | none => []

/-- The `merge_property_with_inherited` traversal for a single property:
append the property value of the architecture and of every ancestor, in
chain order. -/
def merge_property_with_inherited (a : CharmArchitecture)
    (get : ArchNode → Option (List Str)) : List Str :=
  a.chain.foldl (fun out node => out ++ propList (get node)) []

/-- The `all_options` property: the merged `_options`, then the merged
`_compilers`, then the merged `_fortran_compilers` (`out.extend` calls of
`CharmArchitecture.all_options`). -/
def CharmArchitecture.all_options (a : CharmArchitecture) : List Str :=
  merge_property_with_inherited a (fun n => n.options) ++
    merge_property_with_inherited a (fun n => n.compilers) ++
      merge_property_with_inherited a (fun n => n.fortran_compilers)

/-! ## Build status and message log (`chimi/build.py`) -/

/-- The nine `BuildStatus` singletons, in declaration order. -/
inductive BuildStatus where
  | Unconfigured
  | Configure
  | ConfigureFailed
  | Configured
  | Compile
  | CompileFailed
  | Complete
  | PreexistingBuild
  | InterruptedByUser
deriving DecidableEq, Repr

/-- The integer `value` of each status (`[BuildStatus(i) for i in range(9)]`). -/
def BuildStatus.value : BuildStatus → Nat
  | .Unconfigured => 0
  | .Configure => 1
  | .ConfigureFailed => 2
  | .Configured => 3
  | .Compile => 4
  | .CompileFailed => 5
  | .Complete => 6
  | .PreexistingBuild => 7
  | .InterruptedByUser => 8

/-- The `completion` property of `BuildStatus`. -/
def BuildStatus.completion (s : BuildStatus) : Bool :=
  s.value == BuildStatus.Configured.value || s.value == BuildStatus.Complete.value

/-- The `failure` property of `BuildStatus`. -/
def BuildStatus.failure (s : BuildStatus) : Bool :=
  s.value == BuildStatus.ConfigureFailed.value ||
    s.value == BuildStatus.CompileFailed.value ||
      s.value == BuildStatus.InterruptedByUser.value

/-- The canned per-status text of `BuildStatus.default_message`. -/
def BuildStatus.default_message (s : BuildStatus) : Str :=
  match s with
  | .Unconfigured => str "build started."
  | .Configure => str "configuring... "
  | .ConfigureFailed => str "configuration failed."
  | .Configured => str "configuration complete."
  | .Compile => str "compiling... "
  | .CompileFailed => str "compilation failed."
  | .Complete => str "build completed."
  | .PreexistingBuild => str "recorded preexisting build."
  | .InterruptedByUser => str "build aborted."

/-- A recorded build message (`BuildMessage`): creation time, status, and the
optional message text. -/
structure BuildMessage where
  time : Nat
  status : BuildStatus
  message : Option Str
deriving DecidableEq, Repr

/-- The mutable state of one `Build` that `Build.update` touches: the message
log and the owning package set's `save_flag`. -/
structure BuildState where
  messages : List BuildMessage
  save_flag : Bool
deriving DecidableEq, Repr

/-- The `status` property: status of the most recent message
(`self.messages[-1].status`; `none` models the `IndexError` on an empty
log, which is unreachable for constructed builds). -/
def Build.status (st : BuildState) : Option BuildStatus :=
  st.messages.getLast?.map (fun m => m.status)

/-- The `configured` property: some message in the history has status
`Configured` (`len(filter(...)) > 0`). -/
def Build.configured (st : BuildState) : Bool :=
  decide ((st.messages.filter
    (fun m => m.status == BuildStatus.Configured)).length > 0)

/-- The `compiled` property: the current status is `Complete`. -/
def Build.compiled (st : BuildState) : Bool :=
  Build.status st == some BuildStatus.Complete

/-- `Build.update(status, message)`: default the message text, append one
`BuildMessage`, and set the owning package set's `save_flag` unless the
global `chimi.settings.noact` flag is active.  `noact` and the current time
are passed explicitly; the `stderr` echo is an external effect. -/
def Build.update (noact : Bool) (now : Nat) (st : BuildState)
    (status : BuildStatus) (message : Option Str) : BuildState :=
  let message := match message with
    | none => some (BuildStatus.default_message status)
    | some m => some m
  { messages := st.messages ++ [{ time := now, status := status, message := message }]
    save_flag := if noact then st.save_flag else true }

/-! ## Build configurations (`chimi/build.py`, class `BuildConfig`) -/

/-- The fields of a `BuildConfig` object.  `package_def_name` models
`self.package.definition.name` (the owning package kind), the only part of
the package back-reference that `__eq__` consults. -/
structure BuildConfig where
  architecture : Str
  components : List Str
  features : List (Str × PyVal)
  settings : List (Str × PyVal)
  extras : List Str
  branch : Option Str
  package_def_name : Str
deriving DecidableEq, Repr

/-- The final two statements of `BuildConfig.__init__`:
`self.components.sort()` and
`self.extras = list(set(self.extras)); self.extras.sort()`. -/
def canonicalize (c : BuildConfig) : BuildConfig :=
  { c with
    components := pySort c.components
    extras := pySort c.extras.dedup }

/-- `BuildConfig.__eq__`: identity fast path (modelled by structural
equality, which coincides with it on the duplicate-key-free dictionaries the
code builds), then field-wise comparison, with Python dictionary equality on
`features` and `settings`. -/
def beqBuildConfig (a b : BuildConfig) : Bool :=
  if a = b then true
  else
    a.architecture == b.architecture &&
    a.components == b.components &&
    dictEq a.features b.features &&
    dictEq a.settings b.settings &&
    a.extras == b.extras &&
    a.branch == b.branch &&
    a.package_def_name == b.package_def_name

/-! ## Host defaults (`chimi/config.py`) -/

/-- One per-component host-default rule (`HostBuildOption`). -/
structure HostBuildOption where
  name : Str
  enable_by_default : Bool
  prerequisite_components : List Str
  apply_settings : List (Str × PyVal)
  apply_extras : List Str
deriving DecidableEq, Repr

/-- A host build configuration (`HostBuildConfig`): its `components`
dictionary, as the list of rules in iteration order. -/
structure HostBuildConfig where
  components : List HostBuildOption
deriving DecidableEq, Repr

/-- One iteration of the `for optname in self.components` loop of
`HostBuildConfig.apply`.  The `set(...).difference(set(...))` used for
prerequisite expansion enumerates in unspecified order; it is modelled as
`dedup`+`filter`, which yields the same set of added elements. -/
def applyOne (arch_options negated_components : List Str)
    (c : BuildConfig) (opt : HostBuildOption) : BuildConfig :=
  if arch_options.contains opt.name && !(negated_components.contains opt.name) then
    let c := if opt.enable_by_default then
        { c with components := c.components ++ [opt.name] }
      else c
    if c.components.contains opt.name then
      let c := { c with components := c.components ++
        (opt.prerequisite_components.dedup.filter
          (fun p => !(c.components.contains p))) }
      let newSettings := opt.apply_settings.foldl
        (fun s (kv : Str × PyVal) => dictSet s kv.1 kv.2) c.settings
      let c := { c with settings := newSettings }
      { c with extras := c.extras ++ opt.apply_extras }
    else c
  else c

/-- `HostBuildConfig.apply(build_config, negations)`: look the architecture
up in the process-wide catalog, run every rule, then sort the component
list.  A missing catalog entry (a `KeyError` in Python, unreachable from
`BuildConfig.create`) is modelled by an empty legal-option set. -/
def HostBuildConfig.apply (h : HostBuildConfig)
    (catalog : List (Str × CharmArchitecture)) (c : BuildConfig)
    (negations : List Str × List Str × List Str) : BuildConfig :=
  let negated_components := negations.1
  let arch_options := match dictGet catalog c.architecture with
    | some a => a.all_options
    | none => []
  let c := h.components.foldl (applyOne arch_options negated_components) c
  { c with components := pySort c.components }

/-! ## Option classification (`BuildConfig.create`) -/

/-- One `configure`-script option as returned by `get_configure_options`:
its kind (`'with'` or `'enable'`) and default. -/
structure ConfigureOption where
  kind_is_with : Bool
  default : Bool
deriving DecidableEq, Repr

/-- The six collections the classification loop of `BuildConfig.create`
accumulates. -/
structure ParseState where
  negate_components : List Str
  negate_features : List Str
  negate_settings : List Str
  components : List Str
  features : List (Str × PyVal)
  settings : List (Str × PyVal)
deriving DecidableEq, Repr

/-- The empty accumulator. -/
def initParseState : ParseState :=
  { negate_components := [], negate_features := [], negate_settings := []
    components := [], features := [], settings := [] }

/-- Errors raised (or assertions failed) inside `BuildConfig.create` and
`Package.add_build`.  `assertNoEqualsInNegation` is the
`assert(not '=' in opt)` at the `-name` branch; `assertArchConfigureOverlap`
is the `assert(not name in available_configure_options or ... == 'with')`
check; `cannotOverwrite` is the `RuntimeError('Cowardly refusing to
overwrite previous build')` of `add_build` (no dedicated exception class
exists for it in the code). -/
inductive CreateError where
  | invalidArchitecture (architecture : Str) (qualifier : Option Str)
  | invalidBuildOption (option : Str) (raw_option : Option Str)
  | assertNoEqualsInNegation
  | assertArchConfigureOverlap
  | cannotOverwrite
deriving DecidableEq, Repr

/-- Python `opt.split('=', 1)`: the text before the first `'='` and the text
after it (the second component is meaningful only when `'='` occurs). -/
def splitEq1 : Str → Str × Str
  | [] => ([], [])
  | c :: rest =>
    if c = '=' then ([], rest)
    else
      let p := splitEq1 rest
      (c :: p.1, p.2)

/-- Python `elt.split(',')` (empty fields included, as in Python). -/
def splitComma : Str → List Str
  | [] => [[]]
  | c :: rest =>
    if c = ',' then [] :: splitComma rest
    else
      match splitComma rest with
      | [] => [[c]]
      | t :: ts => (c :: t) :: ts

/-- The `options_ary` construction: split every element on commas and keep
the non-empty tokens. -/
def tokenize (opts : List Str) : List Str :=
  opts.foldl
    (fun acc elt => acc ++ (splitComma elt).filter (fun x => decide (x.length > 0)))
    []

/-- Append a classified component name to the negation list or the component
list, according to its value. -/
def pushComponent (ps : ParseState) (name : Str) (value : PyVal) : ParseState :=
  if value = PyVal.bool false then
    { ps with negate_components := ps.negate_components ++ [name] }
  else
    { ps with components := ps.components ++ [name] }

/-- The classification cascade on a resolved `(name, value)` pair: component
names first (with the arch/configure overlap assertion), then `configure`
features and settings, then the unknown-option error. -/
def classifyNamed (available_arch_options : List Str)
    (available_configure_options : List (Str × ConfigureOption))
    (ignore_unknown_options : Bool) (ps : ParseState)
    (name : Str) (value : PyVal) (raw : Str) : Except CreateError ParseState :=
  if available_arch_options.contains name then
    match dictGet available_configure_options name with
    | some co =>
      if co.kind_is_with then .ok (pushComponent ps name value)
      else .error .assertArchConfigureOverlap
    | none => .ok (pushComponent ps name value)
  else
    match dictGet available_configure_options name with
    | some co =>
      if co.kind_is_with then
        if value = PyVal.bool false ∧ co.default = false then
          .ok { ps with negate_settings := ps.negate_settings ++ [name] }
        else
          .ok { ps with settings := dictSet ps.settings name value }
      else
        if value = PyVal.bool false ∧ co.default = false then
          .ok { ps with negate_features := ps.negate_features ++ [name] }
        else
          .ok { ps with features := dictSet ps.features name value }
    | none =>
      if ignore_unknown_options then .ok ps
      else .error (.invalidBuildOption name (if raw = name then none else some raw))

/-- Classification of one raw token (`for opt in options_ary` body): resolve
`(name, value)` from the `'='` split, then the `'-'` negation branch with its
assertion, then classify. -/
def classifyToken (available_arch_options : List Str)
    (available_configure_options : List (Str × ConfigureOption))
    (ignore_unknown_options : Bool)
    (ps : ParseState) (opt : Str) : Except CreateError ParseState :=
  let nv : Str × PyVal :=
    if '=' ∈ opt then
      let p := splitEq1 opt
      (p.1, PyVal.str p.2)
    else (opt, PyVal.bool true)
  if opt.head? = some '-' then
    if '=' ∈ opt then .error .assertNoEqualsInNegation
    else classifyNamed available_arch_options available_configure_options
      ignore_unknown_options ps (opt.drop 1) (PyVal.bool false) opt
  else
    classifyNamed available_arch_options available_configure_options
      ignore_unknown_options ps nv.1 nv.2 opt

/-- The whole classification loop. -/
def classifyOpts (available_arch_options : List Str)
    (available_configure_options : List (Str × ConfigureOption))
    (ignore_unknown_options : Bool) (tokens : List Str) :
    Except CreateError ParseState :=
  tokens.foldlM
    (classifyToken available_arch_options available_configure_options
      ignore_unknown_options)
    initParseState

/-! ## Architecture-name resolution and `BuildConfig.create` -/

/-- The outputs of `os.uname()` that `chimi.config.get_architecture`
consults. -/
structure HostInfo where
  osname : Str
  machname : Str
deriving DecidableEq, Repr

/-- Python `s.lower()`. -/
def strLower (s : Str) : Str := s.map Char.toLower

/-- `chimi.config.DEFAULT_COMMS_TYPE`. -/
def DEFAULT_COMMS_TYPE : Str := str "net"

/-- `chimi.config.get_architecture`: `'-'.join([base, osname.lower(),
machname.lower()])`. -/
def get_architecture (hi : HostInfo)
    (base_arch : Str := DEFAULT_COMMS_TYPE) : Str :=
  base_arch ++ ['-'] ++ strLower hi.osname ++ ['-'] ++ strLower hi.machname

/-- Everything `BuildConfig.create` reads from its process environment: the
architecture catalog (`CharmDefinition.Architectures`), the host platform
data, the package's `configure` options, the loaded host-data file
(`HostConfig.load().build`, `none` when no host file applies), the CUDA
probe result, and the owning package's branch and definition name. -/
structure CreateEnv where
  architectures : List (Str × CharmArchitecture)
  host : HostInfo
  configure_options : List (Str × ConfigureOption)
  host_build : Option HostBuildConfig
  cuda_dir : Option Str
  package_branch : Option Str
  package_def_name : Str
deriving Repr

/-- Python truthiness of the `arch` argument (`if not arch_name`): an absent
or empty name counts as not given. -/
def archNameGiven : Option Str → Bool
  | none => false
  | some s => !s.isEmpty

/-- The architecture-resolution prefix of `BuildConfig.create`: auto-select
a name when none was given, auto-complete a known base-architecture
shorthand, then either accept the name or raise
`InvalidArchitectureError(name, qualifier)`. -/
def resolveArchName (env : CreateEnv) (arch : Option Str) :
    Except CreateError Str :=
  let sel : Str × Bool × Bool :=
    if archNameGiven arch = false then
      (get_architecture env.host, true, false)
    else
      let an := arch.getD []
      match dictGet env.architectures an with
      | some a =>
        if a.is_base then (get_architecture env.host an, false, true)
        else (an, false, false)
      | none => (an, false, false)
  match dictGet env.architectures sel.1 with
  | some _ => .ok sel.1
  | none =>
    .error (.invalidArchitecture sel.1
      (if sel.2.1 then some (str "Auto-selected")
       else if sel.2.2 then some (str "Auto-completed")
       else none))

/-- The `all_options` of a catalog entry (`Architectures[arch].all_options`;
`[]` models the unreachable missing-key case). -/
def archAllOptions (env : CreateEnv) (name : Str) : List Str :=
  match dictGet env.architectures name with
  | some a => a.all_options
  | none => []

/-- The plain (no host-data) overload of `BuildConfig.__init__`: record the
fields, fall back to the package's branch, auto-set the `cuda` setting when
the `cuda` component is present and a CUDA directory was found, then sort
the components and sort-and-deduplicate the extras. -/
def buildConfigInit (cuda_dir : Option Str) (arch : Str)
    (components : List Str) (features settings : List (Str × PyVal))
    (extras : List Str) (branch : Option Str) (package_branch : Option Str)
    (package_def_name : Str) : BuildConfig :=
  let branch := match branch with
    | some b => some b
    | none => package_branch
  let settings :=
    if components.contains (str "cuda") then
      match cuda_dir with
      | some d => dictSet settings (str "cuda") (PyVal.str d)
      | none => settings
    else settings
  canonicalize
    { architecture := arch, components := components, features := features
      settings := settings, extras := extras, branch := branch
      package_def_name := package_def_name }

/-- `BuildConfig.create(package, arch, opts, extras, branch,
ignore_unknown_options)`: resolve the architecture, classify the raw option
tokens, build the base configuration, and apply the host build defaults when
a host-data file was loaded (the outer `__init__` overload re-runs the final
sort/deduplicate statements after `apply`, hence the second
`canonicalize`). -/
def create (env : CreateEnv) (arch : Option Str) (opts : List Str)
    (extras : List Str) (branch : Option Str)
    (ignore_unknown_options : Bool) : Except CreateError BuildConfig := do
  let arch_name ← resolveArchName env arch
  let available_arch_options := archAllOptions env arch_name
  let ps ← classifyOpts available_arch_options env.configure_options
    ignore_unknown_options (tokenize opts)
  let base := buildConfigInit env.cuda_dir arch_name ps.components ps.features
    ps.settings extras branch env.package_branch env.package_def_name
  match env.host_build with
  | some hbc =>
    .ok (canonicalize (hbc.apply env.architectures base
      (ps.negate_components, ps.negate_features, ps.negate_settings)))
  | none => .ok base

/-! ## The package registry (`chimi/core.py`, class `Package`) -/

/-- One recorded build (`Build`), reduced to the fields the registry
operations consult: identity, derived name, target directory, and the
configuration snapshot. -/
structure BuildRec where
  uuid : Str
  name : Str
  directory : Str
  config : BuildConfig
deriving DecidableEq, Repr

/-- The parts of a `Package` that the registry operations touch: its build
list and the owning package set's `save_flag`. -/
structure PackageState where
  builds : List BuildRec
  save_flag : Bool
deriving DecidableEq, Repr

/-- `Package.find_builds(config)`: all builds whose configuration equals
`config`. -/
def find_builds (st : PackageState) (config : BuildConfig) : List BuildRec :=
  st.builds.filter (fun x => beqBuildConfig x.config config)

/-- `Package.find_build(config)`: the first match, if any. -/
def find_build (st : PackageState) (config : BuildConfig) : Option BuildRec :=
  (find_builds st config).head?

/-- `Package.add_build(build, replace)`.  The `del self.builds[idx]` of the
replace branch removes the first configuration-equal record (list `index`
compares by object identity, and `owned` is that first match). -/
def add_build (noact : Bool) (st : PackageState) (b : BuildRec)
    (replace : Bool) : Except CreateError PackageState :=
  match find_build st b.config with
  | none =>
    .ok { builds := st.builds ++ [b]
          save_flag := if noact then st.save_flag else true }
  | some owned =>
    if owned.directory ≠ b.directory then
      .ok { builds := st.builds ++ [b]
            save_flag := if noact then st.save_flag else true }
    else if replace then
      .ok { st with builds :=
        (st.builds.eraseP (fun x => beqBuildConfig x.config b.config)) ++ [b] }
    else .error .cannotOverwrite

/-- Python truthiness of an optional list argument. -/
def listTruthy {α : Type} : Option (List α) → Bool
  | some (_ :: _) => true
  | _ => false

/-- `Package.purge_builds(config, names, uuids, callback)`: select the
matching builds (all of them when no selector is given), invoke the callback
on each, delete each selected build's directory and remove it from the list
unless `noact` is set, and return the selection count.  The result is
`(count, new build list, callback invocations in order)`; directory deletion
is an external effect of each callback-listed record. -/
def purge_builds (noact : Bool) (st : PackageState)
    (config : Option BuildConfig) (names : Option (List Str))
    (uuids : Option (List Str)) : Nat × List BuildRec × List BuildRec :=
  let selected :=
    match config with
    | some cfg => st.builds.filter (fun x => beqBuildConfig x.config cfg)
    | none =>
      if listTruthy names || listTruthy uuids then
        st.builds.filter (fun b =>
          (listTruthy names && (names.getD []).contains b.name) ||
            (listTruthy uuids && (uuids.getD []).contains b.uuid))
      else st.builds
  let new_builds :=
    if noact then st.builds
    else selected.foldl (fun acc b => acc.erase b) st.builds
  (selected.length, new_builds, selected)


/-! ## Order instances for `strLeP` -/

instance : IsTotal Str strLeP where
  total := by
    intro a
    induction a with
    | nil => intro b; left; rfl
    | cons x xs ih =>
      intro b
      cases b with
      | nil => right; rfl
      | cons y ys =>
        unfold strLeP strLe
        rcases Nat.lt_trichotomy x.toNat y.toNat with h | h | h
        · left; simp [h]
        · have h1 : ¬ x.toNat < y.toNat := by omega
          have h2 : ¬ y.toNat < x.toNat := by omega
          simpa [h1, h2] using ih ys
        · have h1 : ¬ x.toNat < y.toNat := by omega
          right; simp [h, h1]

instance : IsTrans Str strLeP where
  trans := by
    intro a
    induction a with
    | nil => intro b c _ _; rfl
    | cons x xs ih =>
      intro b c hab hbc
      cases b with
      | nil => simp [strLeP, strLe] at hab
      | cons y ys =>
        cases c with
        | nil => simp [strLeP, strLe] at hbc
        | cons z zs =>
          unfold strLeP strLe at hab hbc ⊢
          rcases Nat.lt_trichotomy x.toNat y.toNat with hxy | hxy | hxy <;>
            rcases Nat.lt_trichotomy y.toNat z.toNat with hyz | hyz | hyz
          · simp [show x.toNat < z.toNat by omega]
          · simp [show x.toNat < z.toNat by omega]
          · simp [show ¬ y.toNat < z.toNat by omega, hyz] at hbc
          · simp [show x.toNat < z.toNat by omega]
          · have hg : ¬ x.toNat < z.toNat := by omega
            have hg' : ¬ z.toNat < x.toNat := by omega
            simp only [show ¬ x.toNat < y.toNat by omega,
              show ¬ y.toNat < x.toNat by omega, if_neg, if_false] at hab
            simp only [show ¬ y.toNat < z.toNat by omega,
              show ¬ z.toNat < y.toNat by omega, if_neg, if_false] at hbc
            simp only [hg, hg', if_neg, if_false]
            exact ih ys zs hab hbc
          · simp [show ¬ y.toNat < z.toNat by omega, hyz] at hbc
          · simp [show ¬ x.toNat < y.toNat by omega, hxy] at hab
          · simp [show ¬ x.toNat < y.toNat by omega, hxy] at hab
          · simp [show ¬ x.toNat < y.toNat by omega, hxy] at hab

/-! ## Specification-side definitions (for claim statements) -/

/-- Field-wise configuration equality as the specification states it: all
scalar and list fields equal, with order-independent dictionary equality for
the map-valued fields. -/
def fieldsEqConfig (a b : BuildConfig) : Prop :=
  a.architecture = b.architecture ∧ a.components = b.components ∧
  dictEq a.features b.features = true ∧ dictEq a.settings b.settings = true ∧
  a.extras = b.extras ∧ a.branch = b.branch ∧
  a.package_def_name = b.package_def_name

/-- The architecture name after auto-selection (no name given) or
auto-completion (a known base-architecture shorthand given), stated in the
specification's words for comparison with `resolveArchName`. -/
def specResolvedName (env : CreateEnv) (arch : Option Str) : Str :=
  if archNameGiven arch = false then get_architecture env.host
  else
    let an := arch.getD []
    match dictGet env.architectures an with
    | some a => if a.is_base then get_architecture env.host an else an
    | none => an

/-- The diagnostic qualifier the specification prescribes: `Auto-selected`
for an auto-selected name, `Auto-completed` for an auto-completed one, and
none when the user supplied the full name. -/
def specQualifier (env : CreateEnv) (arch : Option Str) : Option Str :=
  if archNameGiven arch = false then some (str "Auto-selected")
  else
    let an := arch.getD []
    match dictGet env.architectures an with
    | some a => if a.is_base then some (str "Auto-completed") else none
    | none => none

/-- The own options, compilers and fortran compilers of one node of an
architecture's ancestor chain. -/
def nodeAll (n : ArchNode) : List Str :=
  propList n.options ++ propList n.compilers ++ propList n.fortran_compilers

/-- The canonical shape `BuildConfig.__init__` actually guarantees:
`components` sorted (so re-sorting is a no-op), `extras` sorted and
duplicate-free (so re-sorting and de-duplicating are no-ops).  Nothing is
guaranteed about duplicates in `components`. -/
def canonicalForm (c : BuildConfig) : Prop :=
  List.Sorted strLeP c.components ∧ List.Sorted strLeP c.extras ∧
  c.extras.Nodup ∧ pySort c.components = c.components ∧
  pySort c.extras = c.extras ∧ c.extras.dedup = c.extras

instance (c : BuildConfig) : Decidable (canonicalForm c) := by
  unfold canonicalForm
  infer_instance

/-- The host-default rules in effect: the `components` of the loaded host
build configuration, or none when no host-data file applies. -/
def hostRulesList (env : CreateEnv) : List HostBuildOption :=
  match env.host_build with
  | some h => h.components
  | none => []

/-! ## Concrete example data (used by counterexamples and witnesses) -/

/-- A build architecture `net-linux-i686` offering the build options
`ibverbs`, `smp` and `x`, with no ancestors. -/
def archNLI : CharmArchitecture :=
  { chain := [mkArchNode (some [str "ibverbs", str "smp", str "x"]) none none]
    is_base := false }

/-- An environment with the single architecture `archNLI` and no host-data
file. -/
def envPlain : CreateEnv :=
  { architectures := [(str "net-linux-i686", archNLI)]
    host := { osname := str "linux", machname := str "i686" }
    configure_options := []
    host_build := none
    cuda_dir := none
    package_branch := some (str "master")
    package_def_name := str "charm" }

/-- Host defaults enabling `x` and `ibverbs` by default, where `ibverbs`
requires `x` and the (architecture-illegal) option `bogus`. -/
def hostRules : HostBuildConfig :=
  { components :=
      [{ name := str "x", enable_by_default := true
         prerequisite_components := [], apply_settings := [], apply_extras := [] },
       { name := str "ibverbs", enable_by_default := true
         prerequisite_components := [str "x", str "bogus"]
         apply_settings := [], apply_extras := [] }] }

/-- `envPlain` with the `hostRules` host-data file. -/
def envHost : CreateEnv := { envPlain with host_build := some hostRules }

/-- Host defaults enabling only `x` by default, with no prerequisites. -/
def hostRulesNoPre : HostBuildConfig :=
  { components :=
      [{ name := str "x", enable_by_default := true
         prerequisite_components := [], apply_settings := [], apply_extras := [] }] }

/-- `envPlain` with the `hostRulesNoPre` host-data file. -/
def envNoPre : CreateEnv := { envPlain with host_build := some hostRulesNoPre }

/-- The configuration produced by `create` on `envHost` both for no options
and for the single token `-x`: the negated `x` is re-enabled as a
prerequisite of `ibverbs`, and the architecture-illegal `bogus` is kept. -/
def negCfg : BuildConfig :=
  { architecture := str "net-linux-i686"
    components := [str "bogus", str "ibverbs", str "x"]
    features := [], settings := [], extras := [], branch := some (str "master")
    package_def_name := str "charm" }

/-- The configuration produced by `create` on `envNoPre` for the single
token `-x`: the negation blocks the host-default rule for `x`, and no
prerequisite can re-enable it. -/
def noPreCfg : BuildConfig :=
  { architecture := str "net-linux-i686"
    components := []
    features := [], settings := [], extras := [], branch := some (str "master")
    package_def_name := str "charm" }

/-- The configuration produced by `create` on `envPlain` for the raw option
string `smp,smp`: the component list keeps the duplicate. -/
def dupCfg : BuildConfig :=
  { architecture := str "net-linux-i686"
    components := [str "smp", str "smp"]
    features := [], settings := [], extras := [], branch := some (str "master")
    package_def_name := str "charm" }

/-- An architecture chain whose merged option lists concatenate to an
unsorted list with a duplicate. -/
def archUnsorted : CharmArchitecture :=
  { chain := [mkArchNode (some [str "b"]) none none,
              mkArchNode (some [str "a", str "b"]) none none]
    is_base := false }

/-- Two configurations that differ only in their components. -/
def cfgNetA : BuildConfig :=
  { architecture := str "net-linux-i686", components := [str "smp"]
    features := [], settings := [], extras := [], branch := none
    package_def_name := str "charm" }

/-- Companion of `cfgNetA` with a different component list. -/
def cfgNetB : BuildConfig := { cfgNetA with components := [str "ibverbs"] }

/-- A build record owning directory `builds/da` under `cfgNetA`. -/
def buildRecA : BuildRec :=
  { uuid := str "u1", name := str "na", directory := str "builds/da"
    config := cfgNetA }

/-- A build record owning the same directory as `buildRecA` but under the
different configuration `cfgNetB`. -/
def buildRecB : BuildRec :=
  { uuid := str "u2", name := str "nb", directory := str "builds/da"
    config := cfgNetB }

/-- A build record equal in configuration and directory to `buildRecA`. -/
def buildRecA' : BuildRec :=
  { uuid := str "u3", name := str "na", directory := str "builds/da"
    config := cfgNetA }

/-- A configuration with two map-valued entries, for the equality witness. -/
def cfgMapsA : BuildConfig :=
  { architecture := str "net-linux-i686", components := [str "smp"]
    features := [(str "f1", PyVal.bool true), (str "f2", PyVal.str (str "v"))]
    settings := [(str "s1", PyVal.str (str "w"))]
    extras := [], branch := some (str "master")
    package_def_name := str "charm" }

/-- `cfgMapsA` with the `features` entries inserted in the other order. -/
def cfgMapsB : BuildConfig :=
  { cfgMapsA with
    features := [(str "f2", PyVal.str (str "v")), (str "f1", PyVal.bool true)] }

/-! ## Lemmas about `pySort` -/

theorem pySort_sorted (l : List Str) : List.Sorted strLeP (pySort l) :=
  List.sorted_insertionSort strLeP l

theorem pySort_perm (l : List Str) : (pySort l).Perm l :=
  List.perm_insertionSort strLeP l

theorem pySort_eq_of_sorted {l : List Str} (h : List.Sorted strLeP l) :
    pySort l = l :=
  h.insertionSort_eq

theorem mem_pySort {l : List Str} {x : Str} : x ∈ pySort l ↔ x ∈ l :=
  (pySort_perm l).mem_iff

theorem pySort_idem (l : List Str) : pySort (pySort l) = pySort l :=
  pySort_eq_of_sorted (pySort_sorted l)

/-! ## Lemmas about dictionaries -/

theorem dictGet_mem {α : Type} {d : List (Str × α)} {k : Str} {v : α}
    (h : dictGet d k = some v) : (k, v) ∈ d := by
  induction d with
  | nil => simp [dictGet] at h
  | cons kv rest ih =>
    obtain ⟨k', v'⟩ := kv
    by_cases hk : k' = k
    · subst hk
      simp [dictGet] at h
      simp [h]
    · simp [dictGet, hk] at h
      exact List.mem_cons_of_mem _ (ih h)

theorem dictGet_of_mem {α : Type} {d : List (Str × α)} {k : Str} {v : α}
    (hn : NodupKeys d) (h : (k, v) ∈ d) : dictGet d k = some v := by
  induction d with
  | nil => simp at h
  | cons kv rest ih =>
    obtain ⟨k', v'⟩ := kv
    unfold NodupKeys at hn
    simp only [List.map_cons, List.nodup_cons] at hn
    rcases List.mem_cons.mp h with heq | hmem
    · obtain ⟨h1, h2⟩ := Prod.mk.injEq .. ▸ heq.symm
      simp [dictGet, h1, h2]
    · have hk : k' ≠ k := by
        intro he
        exact hn.1 (he ▸ (List.mem_map.mpr ⟨(k, v), hmem, rfl⟩))
      simp only [dictGet, if_neg hk]
      exact ih hn.2 hmem

theorem nodupKeys_perm {α : Type} {d₁ d₂ : List (Str × α)}
    (hp : d₁.Perm d₂) (hn : NodupKeys d₁) : NodupKeys d₂ :=
  (hp.map Prod.fst).nodup hn

theorem dictEq_of_perm {α : Type} [DecidableEq α] {d₁ d₂ : List (Str × α)}
    (hp : d₁.Perm d₂) (hn : NodupKeys d₁) : dictEq d₁ d₂ = true := by
  have hn₂ : NodupKeys d₂ := nodupKeys_perm hp hn
  unfold dictEq
  rw [Bool.and_eq_true, List.all_eq_true, List.all_eq_true]
  constructor
  · intro kv hkv
    have : (kv.1, kv.2) ∈ d₂ := hp.mem_iff.mp hkv
    simp [dictGet_of_mem hn₂ this]
  · intro kv hkv
    have : (kv.1, kv.2) ∈ d₁ := hp.mem_iff.mpr hkv
    simp [dictGet_of_mem hn this]

theorem dictEq_refl {α : Type} [DecidableEq α] {d : List (Str × α)}
    (hn : NodupKeys d) : dictEq d d = true :=
  dictEq_of_perm (List.Perm.refl d) hn

theorem dictEq_symm {α : Type} [DecidableEq α] (d₁ d₂ : List (Str × α)) :
    dictEq d₁ d₂ = dictEq d₂ d₁ := by
  unfold dictEq
  exact Bool.and_comm _ _

/-! ## Claim C6: `Build.update` log and flag behaviour -/

/-- C6: every `update(status, message)` call appends exactly one message
(the log grows by one and the existing prefix is untouched), leaves the
current status equal to the status just passed, keeps `configured`
equivalent to some logged message having status `Configured`, keeps
`compiled` equivalent to the current status being `Complete`, and sets the
owning package set's dirty flag unless the global no-act flag is active
(`save_flag` becomes `save_flag || !noact`). -/
theorem build_update_properties (noact : Bool) (now : Nat) (st : BuildState)
    (status : BuildStatus) (message : Option Str) :
    (Build.update noact now st status message).messages.length
        = st.messages.length + 1 ∧
    (Build.update noact now st status message).messages.take st.messages.length
        = st.messages ∧
    Build.status (Build.update noact now st status message) = some status ∧
    (Build.configured (Build.update noact now st status message) = true ↔
      ∃ m ∈ (Build.update noact now st status message).messages,
        m.status = BuildStatus.Configured) ∧
    (Build.compiled (Build.update noact now st status message) = true ↔
      Build.status (Build.update noact now st status message)
        = some BuildStatus.Complete) ∧
    (Build.update noact now st status message).save_flag
        = (st.save_flag || !noact) := by
  refine ⟨?_, ?_, ?_, ?_, ?_, ?_⟩
  · simp [Build.update]
  · simp [Build.update, List.take_left]
  · simp [Build.status, Build.update]
  · simp [Build.configured, List.length_pos_iff_exists_mem, List.mem_filter]
  · simp [Build.compiled]
  · cases noact <;> simp [Build.update]

/-! ## Claim C10: the `-name=value` assertion in the token classifier -/

theorem classifyNamed_no_negation_assert (aopts : List Str)
    (copts : List (Str × ConfigureOption)) (ig : Bool) (ps : ParseState)
    (name : Str) (value : PyVal) (raw : Str) :
    classifyNamed aopts copts ig ps name value raw
      ≠ .error .assertNoEqualsInNegation := by
  unfold classifyNamed
  repeat' split
  all_goals simp

/-- C10: a raw option token that begins with `-` and contains `=` makes the
classifier abort through the `assert(not '=' in opt)` assertion (modelled by
the `assertNoEqualsInNegation` error), rather than raise
`InvalidBuildOptionError` or classify the token; on every other token that
assertion can not fire. -/
theorem classify_dash_equals_token_asserts :
    (∀ (aopts : List Str) (copts : List (Str × ConfigureOption)) (ig : Bool)
        (ps : ParseState) (opt : Str),
      opt.head? = some '-' → '=' ∈ opt →
      classifyToken aopts copts ig ps opt = .error .assertNoEqualsInNegation) ∧
    (∀ (aopts : List Str) (copts : List (Str × ConfigureOption)) (ig : Bool)
        (ps : ParseState) (opt : Str),
      ¬ (opt.head? = some '-' ∧ '=' ∈ opt) →
      classifyToken aopts copts ig ps opt ≠ .error .assertNoEqualsInNegation) := by
  constructor
  · intro aopts copts ig ps opt hdash heq
    unfold classifyToken
    rw [if_pos hdash, if_pos heq]
  · intro aopts copts ig ps opt hnot
    unfold classifyToken
    rcases Decidable.em (opt.head? = some '-') with hd | hd
    · rcases Decidable.em ('=' ∈ opt) with he | he
      · exact absurd ⟨hd, he⟩ hnot
      · rw [if_pos hd, if_neg he]
        exact classifyNamed_no_negation_assert _ _ _ _ _ _ _
    · rw [if_neg hd]
      exact classifyNamed_no_negation_assert _ _ _ _ _ _ _

/-- Witness for C10 at the concrete tokens `-a=b` and `x=y`. -/
theorem classify_dash_equals_token_asserts_witness :
    classifyToken [] [] false initParseState (str "-a=b")
      = .error .assertNoEqualsInNegation ∧
    classifyToken [str "x"] [] true initParseState (str "x=y")
      ≠ .error .assertNoEqualsInNegation :=
  ⟨classify_dash_equals_token_asserts.1 [] [] false initParseState (str "-a=b")
      (by decide) (by decide),
    classify_dash_equals_token_asserts.2 [str "x"] [] true initParseState
      (str "x=y") (by decide)⟩

/-! ## Claim C9: `purge_builds` with no selector purges everything -/

theorem foldl_erase_self {α : Type} [DecidableEq α] :
    ∀ l : List α, l.Nodup →
      List.foldl (fun acc b => acc.erase b) l l = [] := by
  intro l
  induction l with
  | nil => intro _; rfl
  | cons a t ih =>
    intro hn
    rw [List.foldl_cons, List.erase_cons_head]
    exact ih (List.nodup_cons.mp hn).2

/-- C9: `purge_builds` called with no configuration, no names and no uuids
(and the no-act flag off) selects every build of the package: the callback
list is the whole build list, the registry is left empty, and the returned
count is the total number of builds. -/
theorem purge_builds_no_selector_purges_all (st : PackageState)
    (hnodup : st.builds.Nodup) :
    purge_builds false st none none none
      = (st.builds.length, [], st.builds) := by
  unfold purge_builds listTruthy
  simp only [Bool.or_self, if_neg, Bool.false_eq_true, if_false, ite_false]
  rw [foldl_erase_self st.builds hnodup]

/-- Witness for C9 on a two-build registry. -/
theorem purge_builds_no_selector_witness :
    purge_builds false { builds := [buildRecA, buildRecB], save_flag := false }
        none none none
      = (2, [], [buildRecA, buildRecB]) :=
  purge_builds_no_selector_purges_all
    { builds := [buildRecA, buildRecB], save_flag := false } (by decide)

/-! ## Claim C5: `BuildConfig.__eq__` characterisation -/

theorem beqBuildConfig_true_iff (a b : BuildConfig) :
    beqBuildConfig a b = true ↔ (a = b ∨ fieldsEqConfig a b) := by
  unfold beqBuildConfig fieldsEqConfig
  by_cases h : a = b
  · simp [h]
  · simp [h, Bool.and_eq_true, beq_iff_eq, and_assoc]

theorem fieldsEqConfig_of_eq {a b : BuildConfig}
    (hf : NodupKeys a.features) (hs : NodupKeys a.settings) (h : a = b) :
    fieldsEqConfig a b := by
  subst h
  exact ⟨rfl, rfl, dictEq_refl hf, dictEq_refl hs, rfl, rfl, rfl⟩

/-- C5: on configurations whose dictionaries are duplicate-key-free (all
reachable ones), `a == b` holds exactly when architecture, components,
features, settings, extras, branch and owning package kind are all equal
(dictionary fields compared order-independently); the equality is reflexive,
symmetric, and holds across any reordering of the map-valued fields. -/
theorem buildconfig_equality_characterization :
    (∀ a b : BuildConfig, NodupKeys a.features → NodupKeys a.settings →
      (beqBuildConfig a b = true ↔ fieldsEqConfig a b)) ∧
    (∀ a : BuildConfig, beqBuildConfig a a = true) ∧
    (∀ a b : BuildConfig, beqBuildConfig a b = beqBuildConfig b a) ∧
    (∀ a b : BuildConfig,
      a.architecture = b.architecture → a.components = b.components →
      a.features.Perm b.features → NodupKeys a.features →
      a.settings.Perm b.settings → NodupKeys a.settings →
      a.extras = b.extras → a.branch = b.branch →
      a.package_def_name = b.package_def_name →
      beqBuildConfig a b = true) := by
  refine ⟨?_, ?_, ?_, ?_⟩
  · intro a b hf hs
    rw [beqBuildConfig_true_iff]
    constructor
    · rintro (h | h)
      · exact fieldsEqConfig_of_eq hf hs h
      · exact h
    · exact Or.inr
  · intro a
    rw [beqBuildConfig_true_iff]
    exact Or.inl rfl
  · intro a b
    apply Bool.eq_iff_iff.mpr
    rw [beqBuildConfig_true_iff, beqBuildConfig_true_iff]
    unfold fieldsEqConfig
    constructor
    · rintro (h | h)
      · exact Or.inl h.symm
      · refine Or.inr ⟨h.1.symm, h.2.1.symm, ?_, ?_, h.2.2.2.2.1.symm,
          h.2.2.2.2.2.1.symm, h.2.2.2.2.2.2.symm⟩
        · rw [dictEq_symm]; exact h.2.2.1
        · rw [dictEq_symm]; exact h.2.2.2.1
    · rintro (h | h)
      · exact Or.inl h.symm
      · refine Or.inr ⟨h.1.symm, h.2.1.symm, ?_, ?_, h.2.2.2.2.1.symm,
          h.2.2.2.2.2.1.symm, h.2.2.2.2.2.2.symm⟩
        · rw [dictEq_symm]; exact h.2.2.1
        · rw [dictEq_symm]; exact h.2.2.2.1
  · intro a b h1 h2 hpf hnf hps hns h5 h6 h7
    rw [beqBuildConfig_true_iff]
    exact Or.inr ⟨h1, h2, dictEq_of_perm hpf hnf, dictEq_of_perm hps hns,
      h5, h6, h7⟩

/-- Witness for C5 on two concrete configurations whose `features`
dictionaries hold the same entries in different insertion orders. -/
theorem buildconfig_equality_witness :
    beqBuildConfig cfgMapsA cfgMapsB = true ∧
    (beqBuildConfig cfgMapsA cfgMapsB = true ↔ fieldsEqConfig cfgMapsA cfgMapsB) :=
  ⟨buildconfig_equality_characterization.2.2.2 cfgMapsA cfgMapsB rfl rfl
      (by decide) (by decide) (by decide) (by decide) rfl rfl rfl,
    buildconfig_equality_characterization.1 cfgMapsA cfgMapsB (by decide) (by decide)⟩

/-! ## Claim C7: `all_options` as a union, without sorting -/

theorem mem_foldl_append {β : Type} (g : β → List Str) :
    ∀ (l : List β) (init : List Str) (x : Str),
      x ∈ l.foldl (fun out n => out ++ g n) init ↔ x ∈ init ∨ ∃ n ∈ l, x ∈ g n := by
  intro l
  induction l with
  | nil => simp
  | cons a t ih =>
    intro init x
    rw [List.foldl_cons, ih]
    simp [List.mem_append, or_assoc]

/-- C7 (amended): `all_options` holds exactly the union of the option,
compiler and fortran-compiler sets of the architecture and of all its
ancestors — it is a pure (hence deterministic) function of the architecture
chain — but its output is the concatenation of the per-node lists, not a
globally sorted or duplicate-free list. -/
theorem all_options_set_union (a : CharmArchitecture) (x : Str) :
    x ∈ a.all_options ↔ ∃ n ∈ a.chain, x ∈ nodeAll n := by
  unfold CharmArchitecture.all_options merge_property_with_inherited nodeAll
  simp only [List.mem_append, mem_foldl_append, List.not_mem_nil, false_or]
  constructor
  · rintro ((⟨n, hn, hx⟩ | ⟨n, hn, hx⟩) | ⟨n, hn, hx⟩)
    · exact ⟨n, hn, Or.inl (Or.inl hx)⟩
    · exact ⟨n, hn, Or.inl (Or.inr hx)⟩
    · exact ⟨n, hn, Or.inr hx⟩
  · rintro ⟨n, hn, ((hx | hx) | hx)⟩
    · exact Or.inl (Or.inl ⟨n, hn, hx⟩)
    · exact Or.inl (Or.inr ⟨n, hn, hx⟩)
    · exact Or.inr ⟨n, hn, hx⟩

/-- C7 counterexample: a two-node ancestor chain (child options `[b]`,
parent options `[a, b]`, each per-node list sorted by the constructor) whose
`all_options` evaluates to `[b, a, b]` — neither sorted nor
duplicate-free. -/
theorem all_options_unsorted_with_duplicates :
    archUnsorted.all_options = [str "b", str "a", str "b"] ∧
    ¬ (List.Sorted strLeP archUnsorted.all_options ∧
        archUnsorted.all_options.Nodup) := by
  constructor
  · decide
  · decide


/-! ## Claim C8: `InvalidArchitectureError` conditions -/


theorem except_bind_ok {ε α β : Type} (a : α) (f : α → Except ε β) :
    (Except.ok a >>= f) = f a := rfl

theorem except_bind_error {ε α β : Type} (e : ε) (f : α → Except ε β) :
    ((Except.error e : Except ε α) >>= f) = Except.error e := rfl

theorem classifyNamed_not_invalidArch (aopts : List Str)
    (copts : List (Str × ConfigureOption)) (ig : Bool) (ps : ParseState)
    (name : Str) (value : PyVal) (raw : Str) (n : Str) (q : Option Str) :
    classifyNamed aopts copts ig ps name value raw
      ≠ .error (.invalidArchitecture n q) := by
  unfold classifyNamed
  repeat' split
  all_goals simp

theorem classifyToken_not_invalidArch (aopts : List Str)
    (copts : List (Str × ConfigureOption)) (ig : Bool) (ps : ParseState)
    (opt : Str) (n : Str) (q : Option Str) :
    classifyToken aopts copts ig ps opt ≠ .error (.invalidArchitecture n q) := by
  unfold classifyToken
  dsimp only
  by_cases hd : opt.head? = some '-'
  · by_cases he : '=' ∈ opt
    · rw [if_pos hd, if_pos he]
      simp
    · rw [if_pos hd, if_neg he]
      exact classifyNamed_not_invalidArch _ _ _ _ _ _ _ _ _
  · rw [if_neg hd]
    exact classifyNamed_not_invalidArch _ _ _ _ _ _ _ _ _

theorem foldlM_classify_not_invalidArch :
    ∀ (tokens : List Str) (aopts : List Str)
      (copts : List (Str × ConfigureOption)) (ig : Bool) (ps : ParseState)
      (n : Str) (q : Option Str),
      tokens.foldlM (classifyToken aopts copts ig) ps
        ≠ .error (.invalidArchitecture n q) := by
  intro tokens
  induction tokens with
  | nil =>
    intro aopts copts ig ps n q h
    exact nomatch h
  | cons t ts ih =>
    intro aopts copts ig ps n q
    rw [List.foldlM_cons]
    cases h : classifyToken aopts copts ig ps t with
    | error e =>
      rw [except_bind_error]
      intro hc
      injection hc with h'
      exact classifyToken_not_invalidArch aopts copts ig ps t n q (h' ▸ h)
    | ok ps' =>
      rw [except_bind_ok]
      exact ih aopts copts ig ps' n q

theorem classifyOpts_not_invalidArch (aopts : List Str)
    (copts : List (Str × ConfigureOption)) (ig : Bool) (tokens : List Str)
    (n : Str) (q : Option Str) :
    classifyOpts aopts copts ig tokens ≠ .error (.invalidArchitecture n q) :=
  foldlM_classify_not_invalidArch tokens aopts copts ig initParseState n q

/-- C8: the architecture-resolution prefix of `create` accepts the
auto-selected/auto-completed name exactly when it is in the catalog and
otherwise raises `InvalidArchitectureError` carrying that name and the
prescribed qualifier, and `create` raises `InvalidArchitectureError` exactly
when the resolution prefix does. -/
theorem create_invalid_architecture_exactly (env : CreateEnv)
    (arch : Option Str) (opts extras : List Str) (branch : Option Str)
    (ig : Bool) :
    (resolveArchName env arch =
      (match dictGet env.architectures (specResolvedName env arch) with
       | some _ => .ok (specResolvedName env arch)
       | none => .error (.invalidArchitecture (specResolvedName env arch)
           (specQualifier env arch)))) ∧
    (∀ n q, create env arch opts extras branch ig
        = .error (.invalidArchitecture n q) ↔
      resolveArchName env arch = .error (.invalidArchitecture n q)) := by
  constructor
  · unfold resolveArchName specResolvedName specQualifier
    by_cases hg : archNameGiven arch = false
    · cases hlook : dictGet env.architectures (get_architecture env.host) <;>
        simp [hg, hlook]
    · cases hlook : dictGet env.architectures (arch.getD []) with
      | none => simp [hg, hlook]
      | some a =>
        by_cases hb : a.is_base
        · simp [hg, hb, hlook]
        · simp [hg, hb, hlook]
  · intro n q
    unfold create
    cases hr : resolveArchName env arch with
    | error e =>
      rw [except_bind_error]
      constructor
      · intro h
        injection h with h'
        rw [h']
      · intro h
        injection h with h'
        rw [h']
    | ok aname =>
      rw [except_bind_ok]
      dsimp only
      constructor
      · intro h
        exfalso
        cases hps : classifyOpts (archAllOptions env aname) env.configure_options
            ig (tokenize opts) with
        | error e =>
          rw [hps, except_bind_error] at h
          injection h with h'
          exact classifyOpts_not_invalidArch _ _ _ _ _ _ (h' ▸ hps)
        | ok ps =>
          rw [hps, except_bind_ok] at h
          cases hh : env.host_build with
          | some hbc => rw [hh] at h; exact Except.noConfusion h
          | none => rw [hh] at h; exact Except.noConfusion h
      · intro h
        exact Except.noConfusion h


/-! ## Claim C4: canonical form of constructed configurations -/


theorem create_ok_cases (env : CreateEnv) (arch : Option Str)
    (opts extras : List Str) (branch : Option Str) (ig : Bool)
    (cfg : BuildConfig)
    (hc : create env arch opts extras branch ig = .ok cfg) :
    ∃ aname ps,
      resolveArchName env arch = .ok aname ∧
      classifyOpts (archAllOptions env aname) env.configure_options ig
        (tokenize opts) = .ok ps ∧
      ((env.host_build = none ∧
        cfg = buildConfigInit env.cuda_dir aname ps.components ps.features
          ps.settings extras branch env.package_branch env.package_def_name) ∨
       (∃ hbc, env.host_build = some hbc ∧
        cfg = canonicalize (hbc.apply env.architectures
          (buildConfigInit env.cuda_dir aname ps.components ps.features
            ps.settings extras branch env.package_branch env.package_def_name)
          (ps.negate_components, ps.negate_features, ps.negate_settings)))) := by
  unfold create at hc
  cases hr : resolveArchName env arch with
  | error e =>
    rw [hr, except_bind_error] at hc
    exact Except.noConfusion hc
  | ok aname =>
    rw [hr, except_bind_ok] at hc
    dsimp only at hc
    cases hps : classifyOpts (archAllOptions env aname) env.configure_options
        ig (tokenize opts) with
    | error e =>
      rw [hps, except_bind_error] at hc
      exact Except.noConfusion hc
    | ok ps =>
      rw [hps, except_bind_ok] at hc
      refine ⟨aname, ps, rfl, hps, ?_⟩
      cases hh : env.host_build with
      | some hbc =>
        rw [hh] at hc
        injection hc with h'
        exact Or.inr ⟨hbc, rfl, h'.symm⟩
      | none =>
        rw [hh] at hc
        injection hc with h'
        exact Or.inl ⟨rfl, h'.symm⟩

theorem canonicalize_canonicalForm (c : BuildConfig) :
    canonicalForm (canonicalize c) := by
  unfold canonicalize canonicalForm
  dsimp only
  refine ⟨pySort_sorted _, pySort_sorted _, ?_, pySort_idem _, pySort_idem _, ?_⟩
  · exact (pySort_perm c.extras.dedup).symm.nodup (List.nodup_dedup c.extras)
  · exact List.dedup_eq_self.mpr
      ((pySort_perm c.extras.dedup).symm.nodup (List.nodup_dedup c.extras))

theorem buildConfigInit_canonicalForm (cuda : Option Str) (arch : Str)
    (comps : List Str) (feats sets : List (Str × PyVal)) (extras : List Str)
    (branch pkgbr : Option Str) (pdn : Str) :
    canonicalForm (buildConfigInit cuda arch comps feats sets extras branch pkgbr pdn) := by
  unfold buildConfigInit
  dsimp only
  exact canonicalize_canonicalForm _

/-- C4 (amended): configurations built by `BuildConfig.__init__`. -/
theorem buildconfig_canonical_form :
    (∀ (cuda : Option Str) (arch : Str) (comps : List Str)
        (feats sets : List (Str × PyVal)) (extras : List Str)
        (branch pkgbr : Option Str) (pdn : Str),
      canonicalForm (buildConfigInit cuda arch comps feats sets extras branch pkgbr pdn)) ∧
    (∀ (env : CreateEnv) (arch : Option Str) (opts extras : List Str)
        (branch : Option Str) (ig : Bool) (cfg : BuildConfig),
      create env arch opts extras branch ig = .ok cfg → canonicalForm cfg) := by
  constructor
  · intro cuda arch comps feats sets extras branch pkgbr pdn
    exact buildConfigInit_canonicalForm ..
  · intro env arch opts extras branch ig cfg hc
    obtain ⟨aname, ps, _, _, hcase⟩ :=
      create_ok_cases env arch opts extras branch ig cfg hc
    rcases hcase with ⟨_, rfl⟩ | ⟨hbc, _, rfl⟩
    · exact buildConfigInit_canonicalForm ..
    · exact canonicalize_canonicalForm _

/-- C4 counterexample. -/
theorem create_components_can_hold_duplicates :
    create envPlain (some (str "net-linux-i686")) [str "smp,smp"] [] none false
      = .ok dupCfg ∧
    ¬ dupCfg.components.Nodup ∧
    dupCfg.components.dedup ≠ dupCfg.components := by
  refine ⟨by decide, by decide, by decide⟩

/-- Witness for the amended C4. -/
theorem buildconfig_canonical_form_witness : canonicalForm dupCfg :=
  buildconfig_canonical_form.2 envPlain (some (str "net-linux-i686"))
    [str "smp,smp"] [] none false dupCfg (by decide)


/-! ## Claim C1: the `add_build` overwrite guard -/


/-- C1 counterexample. -/
theorem add_build_divergent_configs_shared_directory :
    beqBuildConfig buildRecA.config buildRecB.config = false ∧
    buildRecA.directory = buildRecB.directory ∧
    add_build false { builds := [buildRecA], save_flag := false } buildRecB false
      = .ok { builds := [buildRecA, buildRecB], save_flag := true } ∧
    (([buildRecA, buildRecB] : List BuildRec).filter
        (fun x => x.directory == buildRecB.directory)).length = 2 := by
  refine ⟨by decide, by decide, by decide, by decide⟩

/-- C1 (amended). -/
theorem add_build_overwrite_guard (noact : Bool) (st : PackageState)
    (b owned : BuildRec)
    (hfind : find_build st b.config = some owned)
    (hdir : owned.directory = b.directory)
    (huniq : st.builds.filter (fun x => x.directory == b.directory) = [owned]) :
    add_build noact st b false = .error .cannotOverwrite ∧
    add_build noact st b true
      = .ok { st with builds :=
          (st.builds.eraseP (fun x => beqBuildConfig x.config b.config)) ++ [b] } ∧
    ((st.builds.eraseP (fun x => beqBuildConfig x.config b.config)) ++ [b]).filter
        (fun x => x.directory == b.directory) = [b] := by
  have hguard : ¬ (owned.directory ≠ b.directory) := not_not_intro hdir
  have hfind' : (st.builds.filter
      (fun x => beqBuildConfig x.config b.config)).head? = some owned := hfind
  refine ⟨?_, ?_, ?_⟩
  · unfold add_build
    rw [hfind]
    simp only [hguard, if_neg, if_false, ite_false, Bool.false_eq_true]
  · unfold add_build
    rw [hfind]
    simp only [hguard, if_neg, if_false, ite_false, ite_true, Bool.false_eq_true]
  · obtain ⟨ys, hys⟩ := List.head?_eq_some_iff.mp hfind'
    have hmemf : owned ∈ st.builds.filter (fun x => beqBuildConfig x.config b.config) := by
      rw [hys]; exact List.mem_cons_self _ _
    have hmem := List.mem_filter.mp hmemf
    obtain ⟨a, l₁, l₂, hnl₁, hpa, hsplit, herase⟩ :=
      @List.exists_of_eraseP BuildRec (fun x => beqBuildConfig x.config b.config)
        st.builds owned hmem.1 hmem.2
    have hfa : st.builds.filter (fun x => beqBuildConfig x.config b.config)
        = a :: l₂.filter (fun x => beqBuildConfig x.config b.config) := by
      rw [hsplit, List.filter_append, List.filter_eq_nil_iff.mpr hnl₁,
        @List.filter_cons_of_pos BuildRec
          (fun x => beqBuildConfig x.config b.config) a l₂ hpa,
        List.nil_append]
    have hcons : a :: l₂.filter (fun x => beqBuildConfig x.config b.config)
        = owned :: ys := by rw [← hfa, hys]
    injection hcons with h1 h2
    subst h1
    have hdirb : (a.directory == b.directory) = true := beq_iff_eq.mpr hdir
    have hsplitdir : l₁.filter (fun x => x.directory == b.directory) ++
        a :: l₂.filter (fun x => x.directory == b.directory) = [a] := by
      rw [← @List.filter_cons_of_pos BuildRec
          (fun x => x.directory == b.directory) a l₂ hdirb,
        ← List.filter_append, ← hsplit, huniq]
    have hlen := congrArg List.length hsplitdir
    simp at hlen
    have hl₁ : l₁.filter (fun x => x.directory == b.directory) = [] :=
      List.eq_nil_of_length_eq_zero (by omega)
    have hl₂ : l₂.filter (fun x => x.directory == b.directory) = [] :=
      List.eq_nil_of_length_eq_zero (by omega)
    have hbb : (b.directory == b.directory) = true := beq_iff_eq.mpr rfl
    rw [herase, List.filter_append, List.filter_append, hl₁, hl₂,
      @List.filter_cons_of_pos BuildRec
        (fun x => x.directory == b.directory) b [] hbb]
    simp

/-- Witness for the amended C1. -/
theorem add_build_overwrite_guard_witness :
    add_build false { builds := [buildRecA], save_flag := false } buildRecA' false
      = .error .cannotOverwrite ∧
    add_build false { builds := [buildRecA], save_flag := false } buildRecA' true
      = .ok ⟨(([buildRecA] : List BuildRec).eraseP
          (fun x => beqBuildConfig x.config buildRecA'.config)) ++ [buildRecA'],
          false⟩ ∧
    ((([buildRecA] : List BuildRec).eraseP
        (fun x => beqBuildConfig x.config buildRecA'.config)) ++ [buildRecA']).filter
        (fun x => x.directory == buildRecA'.directory) = [buildRecA'] :=
  add_build_overwrite_guard false { builds := [buildRecA], save_flag := false }
    buildRecA' buildRecA (by decide) (by decide) (by decide)


/-! ## Claims C2 and C3: host-default legality and negation -/

theorem pushComponent_components (ps : ParseState) (name : Str) (value : PyVal) :
    ∀ x ∈ (pushComponent ps name value).components,
      x ∈ ps.components ∨ x = name := by
  unfold pushComponent
  split
  · intro x hx
    exact Or.inl hx
  · intro x hx
    rcases List.mem_append.mp hx with h | h
    · exact Or.inl h
    · exact Or.inr (List.mem_singleton.mp h)

theorem classifyNamed_components (aopts : List Str)
    (copts : List (Str × ConfigureOption)) (ig : Bool) (ps : ParseState)
    (name : Str) (value : PyVal) (raw : Str) (ps' : ParseState)
    (h : classifyNamed aopts copts ig ps name value raw = .ok ps') :
    ∀ x ∈ ps'.components, x ∈ ps.components ∨ aopts.contains x = true := by
  unfold classifyNamed at h
  by_cases hc : aopts.contains name = true
  · rw [if_pos hc] at h
    have hpush : ps' = pushComponent ps name value := by
      split at h
      · split at h
        · injection h with h'
          exact h'.symm
        · exact Except.noConfusion h
      · injection h with h'
        exact h'.symm
    subst hpush
    intro x hx
    rcases pushComponent_components ps name value x hx with h1 | h1
    · exact Or.inl h1
    · exact Or.inr (h1 ▸ hc)
  · rw [if_neg hc] at h
    intro x hx
    left
    split at h
    · split at h
      · split at h
        · injection h with h'
          subst h'
          exact hx
        · injection h with h'
          subst h'
          exact hx
      · split at h
        · injection h with h'
          subst h'
          exact hx
        · injection h with h'
          subst h'
          exact hx
    · split at h
      · injection h with h'
        subst h'
        exact hx
      · exact Except.noConfusion h

theorem classifyToken_components (aopts : List Str)
    (copts : List (Str × ConfigureOption)) (ig : Bool) (ps : ParseState)
    (opt : Str) (ps' : ParseState)
    (h : classifyToken aopts copts ig ps opt = .ok ps') :
    ∀ x ∈ ps'.components, x ∈ ps.components ∨ aopts.contains x = true := by
  unfold classifyToken at h
  dsimp only at h
  by_cases hd : opt.head? = some '-'
  · rw [if_pos hd] at h
    by_cases he : '=' ∈ opt
    · rw [if_pos he] at h
      exact Except.noConfusion h
    · rw [if_neg he] at h
      exact classifyNamed_components _ _ _ _ _ _ _ _ h
  · rw [if_neg hd] at h
    exact classifyNamed_components _ _ _ _ _ _ _ _ h

theorem foldlM_classify_components :
    ∀ (tokens : List Str) (aopts : List Str)
      (copts : List (Str × ConfigureOption)) (ig : Bool) (ps ps' : ParseState),
      tokens.foldlM (classifyToken aopts copts ig) ps = .ok ps' →
      ∀ x ∈ ps'.components, x ∈ ps.components ∨ aopts.contains x = true := by
  intro tokens
  induction tokens with
  | nil =>
    intro aopts copts ig ps ps' h x hx
    have h' : ps = ps' := Except.ok.inj h
    exact Or.inl (h' ▸ hx)
  | cons t ts ih =>
    intro aopts copts ig ps ps' h x hx
    rw [List.foldlM_cons] at h
    cases ht : classifyToken aopts copts ig ps t with
    | error e =>
      rw [ht, except_bind_error] at h
      exact Except.noConfusion h
    | ok ps₁ =>
      rw [ht, except_bind_ok] at h
      rcases ih aopts copts ig ps₁ ps' h x hx with h1 | h1
      · exact classifyToken_components aopts copts ig ps t ps₁ ht x h1
      · exact Or.inr h1

theorem applyOne_components_eq (aopts neg : List Str) (c : BuildConfig)
    (r : HostBuildOption) :
    (applyOne aopts neg c r).components = c.components ∨
    ((aopts.contains r.name = true ∧ neg.contains r.name = false) ∧
      ((applyOne aopts neg c r).components = c.components ++
          (r.prerequisite_components.dedup.filter
            (fun p => !(c.components.contains p))) ∨
       (applyOne aopts neg c r).components = (c.components ++ [r.name]) ++
          (r.prerequisite_components.dedup.filter
            (fun p => !((c.components ++ [r.name]).contains p))) ∨
       (applyOne aopts neg c r).components = c.components ++ [r.name])) := by
  unfold applyOne
  by_cases hg : (aopts.contains r.name && !(neg.contains r.name)) = true
  · have hand : aopts.contains r.name = true ∧ (!neg.contains r.name) = true := by
      rw [← Bool.and_eq_true]
      exact hg
    have hcn := hand.1
    have hng : neg.contains r.name = false := by
      have h2 := hand.2
      rwa [Bool.not_eq_true'] at h2
    rw [if_pos hg]
    by_cases he : r.enable_by_default = true
    · rw [if_pos he]
      dsimp only
      by_cases hin : ((c.components ++ [r.name]).contains r.name) = true
      · rw [if_pos hin]
        exact Or.inr ⟨⟨hcn, hng⟩, Or.inr (Or.inl rfl)⟩
      · rw [if_neg hin]
        exact Or.inr ⟨⟨hcn, hng⟩, Or.inr (Or.inr rfl)⟩
    · rw [if_neg he]
      dsimp only
      by_cases hin : (c.components.contains r.name) = true
      · rw [if_pos hin]
        exact Or.inr ⟨⟨hcn, hng⟩, Or.inl rfl⟩
      · rw [if_neg hin]
        exact Or.inl rfl
  · rw [if_neg hg]
    exact Or.inl rfl

theorem applyOne_components (aopts neg : List Str) (c : BuildConfig)
    (r : HostBuildOption) :
    ∀ x ∈ (applyOne aopts neg c r).components,
      x ∈ c.components ∨ aopts.contains x = true ∨
        x ∈ r.prerequisite_components := by
  intro x hx
  rcases applyOne_components_eq aopts neg c r with heq | ⟨⟨hcn, _⟩, heq | heq | heq⟩
  · rw [heq] at hx
    exact Or.inl hx
  · rw [heq] at hx
    rcases List.mem_append.mp hx with h | h
    · exact Or.inl h
    · exact Or.inr (Or.inr (List.mem_dedup.mp (List.mem_filter.mp h).1))
  · rw [heq] at hx
    rcases List.mem_append.mp hx with h | h
    · rcases List.mem_append.mp h with h' | h'
      · exact Or.inl h'
      · exact Or.inr (Or.inl ((List.mem_singleton.mp h') ▸ hcn))
    · exact Or.inr (Or.inr (List.mem_dedup.mp (List.mem_filter.mp h).1))
  · rw [heq] at hx
    rcases List.mem_append.mp hx with h | h
    · exact Or.inl h
    · exact Or.inr (Or.inl ((List.mem_singleton.mp h) ▸ hcn))

theorem applyOne_not_mem (aopts neg : List Str) (c : BuildConfig)
    (r : HostBuildOption) (X : Str)
    (hneg : neg.contains X = true) (hpre : X ∉ r.prerequisite_components)
    (hX : X ∉ c.components) :
    X ∉ (applyOne aopts neg c r).components := by
  have hrX : r.name = X → neg.contains r.name = false → False := by
    intro hEq hf
    rw [hEq, hneg] at hf
    exact Bool.noConfusion hf
  intro hmem
  rcases applyOne_components_eq aopts neg c r with heq | ⟨⟨_, hng⟩, heq | heq | heq⟩
  · rw [heq] at hmem
    exact hX hmem
  · rw [heq] at hmem
    rcases List.mem_append.mp hmem with h | h
    · exact hX h
    · exact hpre (List.mem_dedup.mp (List.mem_filter.mp h).1)
  · rw [heq] at hmem
    rcases List.mem_append.mp hmem with h | h
    · rcases List.mem_append.mp h with h' | h'
      · exact hX h'
      · exact hrX (List.mem_singleton.mp h').symm hng
    · exact hpre (List.mem_dedup.mp (List.mem_filter.mp h).1)
  · rw [heq] at hmem
    rcases List.mem_append.mp hmem with h | h
    · exact hX h
    · exact hrX (List.mem_singleton.mp h).symm hng

theorem foldl_applyOne_components (aopts neg : List Str) :
    ∀ (rules : List HostBuildOption) (c : BuildConfig) (x : Str),
      x ∈ (rules.foldl (applyOne aopts neg) c).components →
      x ∈ c.components ∨ aopts.contains x = true ∨
        ∃ r ∈ rules, x ∈ r.prerequisite_components := by
  intro rules
  induction rules with
  | nil =>
    intro c x hx
    exact Or.inl hx
  | cons r rs ih =>
    intro c x hx
    rw [List.foldl_cons] at hx
    rcases ih (applyOne aopts neg c r) x hx with h1 | h1 | h1
    · rcases applyOne_components aopts neg c r x h1 with h2 | h2 | h2
      · exact Or.inl h2
      · exact Or.inr (Or.inl h2)
      · exact Or.inr (Or.inr ⟨r, List.mem_cons_self .., h2⟩)
    · exact Or.inr (Or.inl h1)
    · obtain ⟨r', hr', hx'⟩ := h1
      exact Or.inr (Or.inr ⟨r', List.mem_cons_of_mem _ hr', hx'⟩)

theorem foldl_applyOne_not_mem (aopts neg : List Str) (X : Str)
    (hneg : neg.contains X = true) :
    ∀ (rules : List HostBuildOption) (c : BuildConfig),
      (∀ r ∈ rules, X ∉ r.prerequisite_components) →
      X ∉ c.components →
      X ∉ (rules.foldl (applyOne aopts neg) c).components := by
  intro rules
  induction rules with
  | nil =>
    intro c _ hX
    exact hX
  | cons r rs ih =>
    intro c hpre hX
    rw [List.foldl_cons]
    exact ih _ (fun r' hr' => hpre r' (List.mem_cons_of_mem _ hr'))
      (applyOne_not_mem aopts neg c r X hneg (hpre r (List.mem_cons_self ..)) hX)

theorem buildConfigInit_components (cuda : Option Str) (arch : Str)
    (comps : List Str) (feats sets : List (Str × PyVal)) (extras : List Str)
    (branch pkgbr : Option Str) (pdn : Str) :
    (buildConfigInit cuda arch comps feats sets extras branch pkgbr pdn).components
      = pySort comps := rfl

theorem hostApply_components (h : HostBuildConfig)
    (catalog : List (Str × CharmArchitecture)) (c : BuildConfig)
    (negs : List Str × List Str × List Str) :
    (h.apply catalog c negs).components
      = pySort ((h.components.foldl
          (applyOne (match dictGet catalog c.architecture with
            | some a => a.all_options
            | none => []) negs.1) c).components) := rfl

/-- C2 (amended). -/
theorem create_components_provenance (env : CreateEnv) (arch : Option Str)
    (opts extras : List Str) (branch : Option Str) (ig : Bool)
    (aname : Str) (cfg : BuildConfig)
    (hr : resolveArchName env arch = .ok aname)
    (hc : create env arch opts extras branch ig = .ok cfg) :
    ∀ x ∈ cfg.components,
      (archAllOptions env aname).contains x = true ∨
        ∃ r ∈ hostRulesList env, x ∈ r.prerequisite_components := by
  obtain ⟨aname', ps, hr', hps, hcase⟩ :=
    create_ok_cases env arch opts extras branch ig cfg hc
  have ha : aname = aname' := by
    rw [hr] at hr'
    exact Except.ok.inj hr'
  subst ha
  have hbase : ∀ x ∈ pySort ps.components,
      (archAllOptions env aname).contains x = true := by
    intro x hx
    have hx' : x ∈ ps.components := mem_pySort.mp hx
    rcases foldlM_classify_components (tokenize opts) (archAllOptions env aname)
      env.configure_options ig initParseState ps hps x hx' with h | h
    · exact absurd h (List.not_mem_nil x)
    · exact h
  rcases hcase with ⟨hnone, rfl⟩ | ⟨hbc, hsome, rfl⟩
  · intro x hx
    rw [buildConfigInit_components] at hx
    exact Or.inl (hbase x hx)
  · intro x hx
    have hx1 := mem_pySort.mp hx
    have hx2 := mem_pySort.mp hx1
    rcases foldl_applyOne_components (archAllOptions env aname)
        ps.negate_components hbc.components _ x hx2 with h1 | h1 | h1
    · rw [buildConfigInit_components] at h1
      exact Or.inl (hbase x h1)
    · exact Or.inl h1
    · obtain ⟨r, hrm, hxp⟩ := h1
      refine Or.inr ⟨r, ?_, hxp⟩
      have hh : hostRulesList env = hbc.components := by
        unfold hostRulesList
        rw [hsome]
      rw [hh]
      exact hrm

/-- C3 (amended). -/
theorem create_negated_component_excluded (env : CreateEnv) (arch : Option Str)
    (opts extras : List Str) (branch : Option Str) (ig : Bool)
    (X : Str) (aname : Str) (ps : ParseState) (cfg : BuildConfig)
    (hr : resolveArchName env arch = .ok aname)
    (hps : classifyOpts (archAllOptions env aname) env.configure_options ig
      (tokenize opts) = .ok ps)
    (hXneg : X ∈ ps.negate_components)
    (hXnot : X ∉ ps.components)
    (hpre : ∀ r ∈ hostRulesList env, X ∉ r.prerequisite_components)
    (hc : create env arch opts extras branch ig = .ok cfg) :
    X ∉ cfg.components := by
  obtain ⟨aname', ps', hr', hps', hcase⟩ :=
    create_ok_cases env arch opts extras branch ig cfg hc
  have ha : aname = aname' := by
    rw [hr] at hr'
    exact Except.ok.inj hr'
  subst ha
  have hp : ps = ps' := by
    rw [hps] at hps'
    exact Except.ok.inj hps'
  subst hp
  have hXsorted : X ∉ pySort ps.components :=
    fun hmem => hXnot (mem_pySort.mp hmem)
  rcases hcase with ⟨hnone, rfl⟩ | ⟨hbc, hsome, rfl⟩
  · rw [buildConfigInit_components]
    exact hXsorted
  · intro hmem
    have hx1 := mem_pySort.mp hmem
    have hx2 := mem_pySort.mp hx1
    have hnegc : ps.negate_components.contains X = true :=
      List.elem_eq_true_of_mem hXneg
    have hprer : ∀ r ∈ hbc.components, X ∉ r.prerequisite_components := by
      intro r hrm
      apply hpre
      have hh : hostRulesList env = hbc.components := by
        unfold hostRulesList
        rw [hsome]
      rw [hh]
      exact hrm
    exact foldl_applyOne_not_mem (archAllOptions env aname)
      ps.negate_components X hnegc hbc.components _ hprer
      (by rw [buildConfigInit_components]; exact hXsorted) hx2

/-- C2 counterexample: the architecture-illegal option `bogus` reaches the
final component list (added as a host-default prerequisite of `ibverbs`) and
is never removed; no diagnostic mechanism exists in the code. -/
theorem create_keeps_illegal_prerequisite_component :
    create envHost (some (str "net-linux-i686")) [] [] none false = .ok negCfg ∧
    str "bogus" ∈ negCfg.components ∧
    (archAllOptions envHost (str "net-linux-i686")).contains (str "bogus")
      = false := by
  refine ⟨by decide, by decide, by decide⟩

/-- Witness for the amended C2 at the concrete component `bogus`. -/
theorem create_components_provenance_witness :
    (archAllOptions envHost (str "net-linux-i686")).contains (str "bogus")
        = true ∨
      ∃ r ∈ hostRulesList envHost, str "bogus" ∈ r.prerequisite_components :=
  create_components_provenance envHost (some (str "net-linux-i686")) [] []
    none false (str "net-linux-i686") negCfg (by decide) (by decide)
    (str "bogus") (by decide)

/-- C3 counterexample: host defaults mark `x` enabled-by-default, the user
passes `-x`, yet the resolved configuration contains `x` — it is re-enabled
as a prerequisite of the (also default-enabled) `ibverbs` rule. -/
theorem create_negated_component_reenabled_by_prerequisite :
    (hostRules.components.any
        (fun r => r.name == str "x" && r.enable_by_default)) = true ∧
    tokenize [str "-x"] = [str "-x"] ∧
    create envHost (some (str "net-linux-i686")) [str "-x"] [] none false
      = .ok negCfg ∧
    str "x" ∈ negCfg.components := by
  refine ⟨by decide, by decide, by decide, by decide⟩

/-- Witness for the amended C3: with no prerequisite lists in play, the
negated `x` stays excluded. -/
theorem create_negated_component_excluded_witness :
    str "x" ∉ noPreCfg.components :=
  create_negated_component_excluded envNoPre (some (str "net-linux-i686"))
    [str "-x"] [] none false (str "x") (str "net-linux-i686")
    ⟨[str "x"], [], [], [], [], []⟩ noPreCfg (by decide) (by decide)
    (by decide) (by decide) (by decide) (by decide)

end Chimi
